import Mathlib

/-!
Shallow embedding of the `ded` Go package: a single-slot, concurrency-safe
cache that deduplicates an expensive "get" operation.

Modelling conventions:
* Go `interface{}` values are modelled by the inductive type `Ded.Val`; a
  value "implements `error`" exactly when it is built with `Val.verr`.
* Go panics are modelled by `Except Val`: `.error p` is a panic carrying the
  payload `p`, `.ok` is normal return.  `recover` is explicit.
* `time.Time` is modelled by `Int` (nanoseconds); `time.Time{}` is `0`,
  `t.After(u)` is `u < t`, `t.Add(d)` is `t + d`.
* Capabilities (`Getter`, `Timer`, `Expirer`) are pure behaviours: a getter
  is the outcome of invoking it once; an expirer is a function of the
  `Timed` input.  Operations that may invoke a capability additionally
  return the number of invocations they performed, so that "never calls the
  producer" is a provable statement rather than a comment.
* `Mem.Dedup` is embedded for a single, uninterleaved call: the re-read
  under the write lock returns the same stored state the optimistic read
  saw.  The interleaved protocol is modelled separately by the transition
  system `Ded.Step` further below.
-/

namespace Ded

/-- Go `interface{}` values that flow through the cache.  `verr` marks the
values that satisfy the `error` contract. -/
inductive Val where
  | vnil : Val
  | vint : Int → Val
  | vstr : String → Val
  | verr : String → Val
deriving DecidableEq, Repr

/-- Whether, as in `err, _ := val.(error); err != nil`, a stored payload satisfies
the `error` contract.  The nil interface is not an error. -/
def Val.isErr : Val → Bool
  | .verr _ => true
  | _ => false

/-- Go `time.Time`, reduced to a totally ordered instant. -/
abbrev Time := Int

/-- Outcome of running a piece of Go code: normal result or panic payload. -/
abbrev GoResult (α : Type) := Except Val α

/-- A `Getter` capability: the outcome of invoking `.Get()` once
(either a returned value or a panic). -/
abbrev Getter := GoResult Val

/-- A `Timer` capability: the outcome of invoking `.Time()` once. -/
abbrev Timer := GoResult Time

/-- Forward declaration target: `Timed` is defined below; an `Expirer`
consumes a `Timed`. -/
structure Either where
  slot : Val
deriving DecidableEq, Repr

/-- Source `Either.Unwrap`: if the inner value implements `error`, returns
`(nil, err)`; otherwise `(val, nil)`. -/
def Either.unwrap (self : Either) : Val × Option Val :=
  if self.slot.isErr then (Val.vnil, some self.slot) else (self.slot, none)

/-- Source `Either.Get`: calls `Unwrap`; panics with the error if present,
otherwise returns the value. -/
def Either.get (self : Either) : GoResult Val :=
  match self.unwrap with
  | (_, some err) => .error err
  | (val, none) => .ok val

/-- Source `Either.Set`: replaces the inner value. -/
def Either.set (self : Either) (val : Val) : Either :=
  { self with slot := val }

/-- Source `Either.rec` (the deferred recover): if a panic with a non-nil payload
was recovered, store that payload; a nil recover leaves the slot alone. -/
def Either.recSet (self : Either) (p : Val) : Either :=
  if p = Val.vnil then self else self.set p

/-- Source `Either.SetGetter`: nil getter stores nil; otherwise invokes the getter
(one invocation, counted) and stores its value; a panic in the getter is
recovered and stored by `recSet`.  The outer `GoResult` records whether the
operation itself panics — it never does, which is proved below. -/
def Either.setGetter (self : Either) (val : Option Getter) : GoResult (Either × Nat) :=
  match val with
  | none => .ok (self.set Val.vnil, 0)
  | some g =>
    match g with
    | .ok v => .ok (self.set v, 1)
    | .error p => .ok (self.recSet p, 1)

/-- Source `Timed`: an `Either` slot plus a timestamp. -/
structure Timed where
  either : Either
  time : Time
deriving DecidableEq, Repr

/-- An `Expirer` capability: given the stored `Timed`, decides expiration
(or panics). -/
abbrev Expirer := Timed → GoResult Bool

/-- Source `MakeTimed`: shortcut constructor. -/
def MakeTimed (val : Val) (inst : Time) : Timed :=
  ⟨⟨val⟩, inst⟩

/-- Source `Timed.Get`, promoted from the embedded `Either`. -/
def Timed.get (self : Timed) : GoResult Val :=
  self.either.get

/-- Source `Timed.SetTimer`: nil timer sets the zero timestamp; otherwise invokes
the timer (counted); on normal return stores the timestamp; a panic in the
timer is recovered into the *value* slot, leaving the timestamp as it was. -/
def Timed.setTimer (self : Timed) (val : Option Timer) : GoResult (Timed × Nat) :=
  match val with
  | none => .ok ({ self with time := 0 }, 0)
  | some t =>
    match t with
    | .ok inst => .ok ({ self with time := inst }, 1)
    | .error p => .ok ({ self with either := self.either.recSet p }, 1)

/-- Package-level `IsExpired`: `exp == nil || exp.IsExpired(timed)` —
nil-safe, short-circuiting, defaulting to expired. -/
def IsExpired (exp : Option Expirer) (timed : Timed) : GoResult Bool :=
  match exp with
  | none => .ok true
  | some e => e timed

/-- Package-level `Get`: `if val != nil { return val }; return nil`.
The body contains no call to `val.Get()`; the function returns the
capability value itself (second component counts invocations: zero). -/
def Get (val : Option Getter) : Option Getter × Nat :=
  match val with
  | some g => (some g, 0)
  | none => (none, 0)

/-- Package-level `Time`: `val.Time()` but nil-safe, falling back to the
zero timestamp. -/
def TimeOf (val : Option Timer) : GoResult Time :=
  match val with
  | none => .ok 0
  | some t => t

/-- What one `Mem.Dedup` call reports: the value returned to the caller and
how many times the getter and the timer were invoked. -/
structure DedupOut where
  ret : Timed
  getCalls : Nat
  timeCalls : Nat
deriving DecidableEq, Repr

/-- Source `Mem.Dedup`, for one uninterleaved call: the first component is the
stored state after the call, the second the outcome (normal return with
invocation counts, or a propagated expirer panic).  Mirrors the source:
optimistic read, expiration check, lock, re-read (same state here),
re-check, then `SetGetter` followed by `SetTimer` on the stored value. -/
def Mem.Dedup (get : Option Getter) (timer : Option Timer) (exp : Option Expirer)
    (val0 : Timed) : Timed × GoResult DedupOut :=
  match IsExpired exp val0 with
  | .error p => (val0, .error p)
  | .ok ex1 =>
    if !ex1 then (val0, .ok ⟨val0, 0, 0⟩)
    else
      match IsExpired exp val0 with
      | .error p => (val0, .error p)
      | .ok ex2 =>
        if !ex2 then (val0, .ok ⟨val0, 0, 0⟩)
        else
          match val0.either.setGetter get with
          | .error p => (val0, .error p)
          | .ok (e1, gc) =>
            let mid : Timed := ⟨e1, val0.time⟩
            match mid.setTimer timer with
            | .error p => (mid, .error p)
            | .ok (fin, tc) => (fin, .ok ⟨fin, gc, tc⟩)

/-- Source `Duration`: a fixed time span used as an expirer. -/
abbrev Duration := Int

/-- Source `Duration.IsExpired`: `time.Now().After(val.Time.Add(self))`, with the
ambient `time.Now()` passed explicitly. -/
def Duration.IsExpired (self : Duration) (now : Time) (val : Timed) : Bool :=
  decide (val.time + self < now)

/-! ### Interleaved protocol

The concurrent `Dedup` protocol, as a transition system: any number of
threads each run the body of `Mem.Dedup` against one shared `Mem`.  The
`sync.RWMutex` write lock is the `writer` field (the runtime guarantees at
most one holder; what is proved below is that the producer is only ever
invoked by the holder).  The shared slot's history of stored states is kept
in an append-only `log`; the current value is the last entry.  A thread that
finishes records which log entry it returned. -/

/-- The capabilities one `Dedup` caller was invoked with. -/
structure ThreadCap where
  get : Option Getter
  tm : Option Timer
  exp : Option Expirer

/-- Program counter of one thread running `Mem.Dedup`. -/
inductive PC where
  | start : PC
  | checked (idx : Nat) (snap : Timed) : PC
  | waiting : PC
  | locked : PC
  | producing : PC
  | timing : PC
  | done (idx : Nat) (ret : Timed) : PC
  | crashed (p : Val) : PC

/-- Shared state: the write-lock holder, the append-only history of stored
`Timed` states (last entry = current), and every thread's program counter. -/
structure Sys where
  writer : Option Nat
  log : List Timed
  threads : Nat → PC

/-- The currently stored `Timed` state: the last history entry. -/
def Sys.cur (s : Sys) : Timed :=
  (s.log.get? (s.log.length - 1)).getD (MakeTimed Val.vnil 0)

/-- One interleaving step of the `Dedup` protocol.  Reads happen under the
read lock (blocked while a writer holds the lock); the getter and timer are
invoked only from the `producing`/`timing` region, entered by acquiring the
write lock. -/
inductive Step (caps : Nat → ThreadCap) : Sys → Sys → Prop where
  | readFast (t : Nat) (s : Sys)
      (hpc : s.threads t = PC.start) (hw : s.writer = none) :
      Step caps s { s with
        threads := Function.update s.threads t (PC.checked (s.log.length - 1) s.cur) }
  | checkFresh (t : Nat) (s : Sys) (idx : Nat) (snap : Timed)
      (hpc : s.threads t = PC.checked idx snap)
      (hexp : IsExpired (caps t).exp snap = .ok false) :
      Step caps s { s with threads := Function.update s.threads t (PC.done idx snap) }
  | checkStale (t : Nat) (s : Sys) (idx : Nat) (snap : Timed)
      (hpc : s.threads t = PC.checked idx snap)
      (hexp : IsExpired (caps t).exp snap = .ok true) :
      Step caps s { s with threads := Function.update s.threads t PC.waiting }
  | checkCrash (t : Nat) (s : Sys) (idx : Nat) (snap : Timed) (p : Val)
      (hpc : s.threads t = PC.checked idx snap)
      (hexp : IsExpired (caps t).exp snap = .error p) :
      Step caps s { s with threads := Function.update s.threads t (PC.crashed p) }
  | acquire (t : Nat) (s : Sys)
      (hpc : s.threads t = PC.waiting) (hw : s.writer = none) :
      Step caps s { s with
        writer := some t, threads := Function.update s.threads t PC.locked }
  | recheckFresh (t : Nat) (s : Sys)
      (hpc : s.threads t = PC.locked)
      (hexp : IsExpired (caps t).exp s.cur = .ok false) :
      Step caps s { s with
        writer := none,
        threads := Function.update s.threads t (PC.done (s.log.length - 1) s.cur) }
  | recheckStale (t : Nat) (s : Sys)
      (hpc : s.threads t = PC.locked)
      (hexp : IsExpired (caps t).exp s.cur = .ok true) :
      Step caps s { s with threads := Function.update s.threads t PC.producing }
  | recheckCrash (t : Nat) (s : Sys) (p : Val)
      (hpc : s.threads t = PC.locked)
      (hexp : IsExpired (caps t).exp s.cur = .error p) :
      Step caps s { s with
        writer := none, threads := Function.update s.threads t (PC.crashed p) }
  | produce (t : Nat) (s : Sys) (e1 : Either) (gc : Nat)
      (hpc : s.threads t = PC.producing)
      (hset : s.cur.either.setGetter (caps t).get = .ok (e1, gc)) :
      Step caps s { s with
        log := s.log ++ [⟨e1, s.cur.time⟩],
        threads := Function.update s.threads t PC.timing }
  | timeStamp (t : Nat) (s : Sys) (fin : Timed) (tc : Nat)
      (hpc : s.threads t = PC.timing)
      (hset : s.cur.setTimer (caps t).tm = .ok (fin, tc)) :
      Step caps s { s with
        writer := none,
        log := s.log ++ [fin],
        threads := Function.update s.threads t (PC.done s.log.length fin) }

/-- A thread is inside the write-lock region. -/
def PC.inLock : PC → Prop
  | .locked => True
  | .producing => True
  | .timing => True
  | _ => False

/-- Initial configuration: lock free, all threads at the start, the slot
holding some (arbitrary) state. -/
def Init (s : Sys) : Prop :=
  s.writer = none ∧ (∀ t, s.threads t = PC.start) ∧ s.log ≠ []

/-- The protocol invariant: the history is never empty, every thread inside
the lock region is the recorded lock holder, and every recorded snapshot or
returned value matches its history entry. -/
structure Inv (s : Sys) : Prop where
  nonempty : s.log ≠ []
  lockOwner : ∀ t, (s.threads t).inLock → s.writer = some t
  doneLog : ∀ t idx v, s.threads t = PC.done idx v → s.log.get? idx = some v
  checkedLog : ∀ t idx v, s.threads t = PC.checked idx v → s.log.get? idx = some v

/-- A concrete capability assignment for exercising the protocol: every
thread runs with no getter, no timer, and an always-expired policy. -/
def capsEx : Nat → ThreadCap :=
  fun _ => ⟨none, none, some fun _ => Except.ok true⟩

/-- A concrete initial configuration: lock free, one history entry, every
thread at the start. -/
def sysInit : Sys :=
  ⟨none, [MakeTimed Val.vnil 0], fun _ => PC.start⟩

/-- State `sysInit` after thread 0 takes its optimistic read. -/
def sysA : Sys :=
  { sysInit with
    threads := Function.update sysInit.threads 0
      (PC.checked (sysInit.log.length - 1) sysInit.cur) }

/-- State `sysA` after thread 0 finds the snapshot expired. -/
def sysB : Sys :=
  { sysA with threads := Function.update sysA.threads 0 PC.waiting }

/-- State `sysB` after thread 0 acquires the write lock. -/
def sysC : Sys :=
  { sysB with writer := some 0, threads := Function.update sysB.threads 0 PC.locked }

/-- State `sysC` after thread 0 re-checks and proceeds to invoke the producer. -/
def sysD : Sys :=
  { sysC with threads := Function.update sysC.threads 0 PC.producing }

/-- Appending to the history preserves every existing entry. -/
theorem get?_append_one {α : Type} {l : List α} {x v : α} {n : Nat}
    (h : l.get? n = some v) : (l ++ [x]).get? n = some v := by
  have hlt : n < l.length := (List.get?_eq_some.mp h).1
  rw [List.get?_append hlt]
  exact h

/-- The last history entry is the current state. -/
theorem Sys.get?_cur (s : Sys) (h : s.log ≠ []) :
    s.log.get? (s.log.length - 1) = some s.cur := by
  have hlt : s.log.length - 1 < s.log.length :=
    Nat.sub_lt (List.length_pos.mpr h) Nat.one_pos
  have hv := List.get?_eq_get hlt
  unfold Sys.cur
  rw [hv]
  rfl

/-- The invariant holds initially. -/
theorem Inv.init {s : Sys} (h : Init s) : Inv s := by
  obtain ⟨hw, hth, hlog⟩ := h
  refine ⟨hlog, ?_, ?_, ?_⟩
  · intro t hl
    rw [hth t] at hl
    exact absurd hl (by simp [PC.inLock])
  · intro t idx v hd
    rw [hth t] at hd
    exact absurd hd (by simp)
  · intro t idx v hc
    rw [hth t] at hc
    exact absurd hc (by simp)

/-- One protocol step preserves the invariant. -/
theorem Inv.step {caps : Nat → ThreadCap} {s s' : Sys}
    (hinv : Inv s) (hstep : Step caps s s') : Inv s' := by
  obtain ⟨hne, hlock, hdone, hcheck⟩ := hinv
  cases hstep with
  | readFast t s hpc hw =>
    refine ⟨hne, ?_, ?_, ?_⟩
    · intro u hu
      dsimp only at hu ⊢
      rcases eq_or_ne u t with rfl | hut
      · rw [Function.update_same] at hu
        exact absurd hu (by simp [PC.inLock])
      · rw [Function.update_noteq hut] at hu
        exact hlock u hu
    · intro u idx v hd
      dsimp only at hd ⊢
      rcases eq_or_ne u t with rfl | hut
      · rw [Function.update_same] at hd
        exact absurd hd (by simp)
      · rw [Function.update_noteq hut] at hd
        exact hdone u idx v hd
    · intro u idx v hc
      dsimp only at hc ⊢
      rcases eq_or_ne u t with rfl | hut
      · rw [Function.update_same] at hc
        obtain ⟨h1, h2⟩ := PC.checked.inj hc
        rw [← h1, ← h2]
        exact s.get?_cur hne
      · rw [Function.update_noteq hut] at hc
        exact hcheck u idx v hc
  | checkFresh t s idx0 snap hpc hexp =>
    refine ⟨hne, ?_, ?_, ?_⟩
    · intro u hu
      dsimp only at hu ⊢
      rcases eq_or_ne u t with rfl | hut
      · rw [Function.update_same] at hu
        exact absurd hu (by simp [PC.inLock])
      · rw [Function.update_noteq hut] at hu
        exact hlock u hu
    · intro u idx v hd
      dsimp only at hd ⊢
      rcases eq_or_ne u t with rfl | hut
      · rw [Function.update_same] at hd
        obtain ⟨h1, h2⟩ := PC.done.inj hd
        rw [← h1, ← h2]
        exact hcheck _ idx0 snap hpc
      · rw [Function.update_noteq hut] at hd
        exact hdone u idx v hd
    · intro u idx v hc
      dsimp only at hc ⊢
      rcases eq_or_ne u t with rfl | hut
      · rw [Function.update_same] at hc
        exact absurd hc (by simp)
      · rw [Function.update_noteq hut] at hc
        exact hcheck u idx v hc
  | checkStale t s idx0 snap hpc hexp =>
    refine ⟨hne, ?_, ?_, ?_⟩
    · intro u hu
      dsimp only at hu ⊢
      rcases eq_or_ne u t with rfl | hut
      · rw [Function.update_same] at hu
        exact absurd hu (by simp [PC.inLock])
      · rw [Function.update_noteq hut] at hu
        exact hlock u hu
    · intro u idx v hd
      dsimp only at hd ⊢
      rcases eq_or_ne u t with rfl | hut
      · rw [Function.update_same] at hd
        exact absurd hd (by simp)
      · rw [Function.update_noteq hut] at hd
        exact hdone u idx v hd
    · intro u idx v hc
      dsimp only at hc ⊢
      rcases eq_or_ne u t with rfl | hut
      · rw [Function.update_same] at hc
        exact absurd hc (by simp)
      · rw [Function.update_noteq hut] at hc
        exact hcheck u idx v hc
  | checkCrash t s idx0 snap p hpc hexp =>
    refine ⟨hne, ?_, ?_, ?_⟩
    · intro u hu
      dsimp only at hu ⊢
      rcases eq_or_ne u t with rfl | hut
      · rw [Function.update_same] at hu
        exact absurd hu (by simp [PC.inLock])
      · rw [Function.update_noteq hut] at hu
        exact hlock u hu
    · intro u idx v hd
      dsimp only at hd ⊢
      rcases eq_or_ne u t with rfl | hut
      · rw [Function.update_same] at hd
        exact absurd hd (by simp)
      · rw [Function.update_noteq hut] at hd
        exact hdone u idx v hd
    · intro u idx v hc
      dsimp only at hc ⊢
      rcases eq_or_ne u t with rfl | hut
      · rw [Function.update_same] at hc
        exact absurd hc (by simp)
      · rw [Function.update_noteq hut] at hc
        exact hcheck u idx v hc
  | acquire t s hpc hw =>
    refine ⟨hne, ?_, ?_, ?_⟩
    · intro u hu
      dsimp only at hu ⊢
      rcases eq_or_ne u t with rfl | hut
      · rfl
      · rw [Function.update_noteq hut] at hu
        have := hlock u hu
        rw [hw] at this
        exact absurd this (by simp)
    · intro u idx v hd
      dsimp only at hd ⊢
      rcases eq_or_ne u t with rfl | hut
      · rw [Function.update_same] at hd
        exact absurd hd (by simp)
      · rw [Function.update_noteq hut] at hd
        exact hdone u idx v hd
    · intro u idx v hc
      dsimp only at hc ⊢
      rcases eq_or_ne u t with rfl | hut
      · rw [Function.update_same] at hc
        exact absurd hc (by simp)
      · rw [Function.update_noteq hut] at hc
        exact hcheck u idx v hc
  | recheckFresh t s hpc hexp =>
    have howner : s.writer = some t := hlock t (by rw [hpc]; trivial)
    refine ⟨hne, ?_, ?_, ?_⟩
    · intro u hu
      dsimp only at hu ⊢
      rcases eq_or_ne u t with rfl | hut
      · rw [Function.update_same] at hu
        exact absurd hu (by simp [PC.inLock])
      · rw [Function.update_noteq hut] at hu
        have := hlock u hu
        rw [howner] at this
        exact absurd (Option.some.inj this) (Ne.symm hut)
    · intro u idx v hd
      dsimp only at hd ⊢
      rcases eq_or_ne u t with rfl | hut
      · rw [Function.update_same] at hd
        obtain ⟨h1, h2⟩ := PC.done.inj hd
        rw [← h1, ← h2]
        exact s.get?_cur hne
      · rw [Function.update_noteq hut] at hd
        exact hdone u idx v hd
    · intro u idx v hc
      dsimp only at hc ⊢
      rcases eq_or_ne u t with rfl | hut
      · rw [Function.update_same] at hc
        exact absurd hc (by simp)
      · rw [Function.update_noteq hut] at hc
        exact hcheck u idx v hc
  | recheckStale t s hpc hexp =>
    have howner : s.writer = some t := hlock t (by rw [hpc]; trivial)
    refine ⟨hne, ?_, ?_, ?_⟩
    · intro u hu
      dsimp only at hu ⊢
      rcases eq_or_ne u t with rfl | hut
      · exact howner
      · rw [Function.update_noteq hut] at hu
        exact hlock u hu
    · intro u idx v hd
      dsimp only at hd ⊢
      rcases eq_or_ne u t with rfl | hut
      · rw [Function.update_same] at hd
        exact absurd hd (by simp)
      · rw [Function.update_noteq hut] at hd
        exact hdone u idx v hd
    · intro u idx v hc
      dsimp only at hc ⊢
      rcases eq_or_ne u t with rfl | hut
      · rw [Function.update_same] at hc
        exact absurd hc (by simp)
      · rw [Function.update_noteq hut] at hc
        exact hcheck u idx v hc
  | recheckCrash t s p hpc hexp =>
    have howner : s.writer = some t := hlock t (by rw [hpc]; trivial)
    refine ⟨hne, ?_, ?_, ?_⟩
    · intro u hu
      dsimp only at hu ⊢
      rcases eq_or_ne u t with rfl | hut
      · rw [Function.update_same] at hu
        exact absurd hu (by simp [PC.inLock])
      · rw [Function.update_noteq hut] at hu
        have := hlock u hu
        rw [howner] at this
        exact absurd (Option.some.inj this) (Ne.symm hut)
    · intro u idx v hd
      dsimp only at hd ⊢
      rcases eq_or_ne u t with rfl | hut
      · rw [Function.update_same] at hd
        exact absurd hd (by simp)
      · rw [Function.update_noteq hut] at hd
        exact hdone u idx v hd
    · intro u idx v hc
      dsimp only at hc ⊢
      rcases eq_or_ne u t with rfl | hut
      · rw [Function.update_same] at hc
        exact absurd hc (by simp)
      · rw [Function.update_noteq hut] at hc
        exact hcheck u idx v hc
  | produce t s e1 gc hpc hset =>
    have howner : s.writer = some t := hlock t (by rw [hpc]; trivial)
    refine ⟨by simp, ?_, ?_, ?_⟩
    · intro u hu
      dsimp only at hu ⊢
      rcases eq_or_ne u t with rfl | hut
      · exact howner
      · rw [Function.update_noteq hut] at hu
        exact hlock u hu
    · intro u idx v hd
      dsimp only at hd ⊢
      rcases eq_or_ne u t with rfl | hut
      · rw [Function.update_same] at hd
        exact absurd hd (by simp)
      · rw [Function.update_noteq hut] at hd
        exact get?_append_one (hdone u idx v hd)
    · intro u idx v hc
      dsimp only at hc ⊢
      rcases eq_or_ne u t with rfl | hut
      · rw [Function.update_same] at hc
        exact absurd hc (by simp)
      · rw [Function.update_noteq hut] at hc
        exact get?_append_one (hcheck u idx v hc)
  | timeStamp t s fin tc hpc hset =>
    have howner : s.writer = some t := hlock t (by rw [hpc]; trivial)
    refine ⟨by simp, ?_, ?_, ?_⟩
    · intro u hu
      dsimp only at hu ⊢
      rcases eq_or_ne u t with rfl | hut
      · rw [Function.update_same] at hu
        exact absurd hu (by simp [PC.inLock])
      · rw [Function.update_noteq hut] at hu
        have := hlock u hu
        rw [howner] at this
        exact absurd (Option.some.inj this) (Ne.symm hut)
    · intro u idx v hd
      dsimp only at hd ⊢
      rcases eq_or_ne u t with rfl | hut
      · rw [Function.update_same] at hd
        obtain ⟨h1, h2⟩ := PC.done.inj hd
        rw [← h1, ← h2]
        exact List.get?_concat_length s.log fin
      · rw [Function.update_noteq hut] at hd
        exact get?_append_one (hdone u idx v hd)
    · intro u idx v hc
      dsimp only at hc ⊢
      rcases eq_or_ne u t with rfl | hut
      · rw [Function.update_same] at hc
        exact absurd hc (by simp)
      · rw [Function.update_noteq hut] at hc
        exact get?_append_one (hcheck u idx v hc)

/-- The invariant holds in every state reachable from an initial state. -/
theorem Inv.reach {caps : Nat → ThreadCap} {s0 s : Sys} (h0 : Init s0)
    (hr : Relation.ReflTransGen (Step caps) s0 s) : Inv s := by
  induction hr with
  | refl => exact Inv.init h0
  | tail _ hstep ih => exact ih.step hstep

/-- Claim C1: for every stored state `S` and policy for which `S` is not
expired, `Dedup` returns `S`, invokes neither the producer nor the clock,
leaves the stored state equal to `S`, and a repeated call on the resulting
state returns the identical state again. -/
theorem dedup_fresh_read_noop (g : Option Getter) (tm : Option Timer)
    (exp : Option Expirer) (S : Timed)
    (h : IsExpired exp S = Except.ok false) :
    Mem.Dedup g tm exp S = (S, Except.ok ⟨S, 0, 0⟩) ∧
    Mem.Dedup g tm exp (Mem.Dedup g tm exp S).1 = (S, Except.ok ⟨S, 0, 0⟩) := by
  have h1 : Mem.Dedup g tm exp S = (S, Except.ok ⟨S, 0, 0⟩) := by
    unfold Mem.Dedup
    rw [h]
    simp
  refine ⟨h1, ?_⟩
  rw [h1]
  exact h1

/-- Witness for C1 at a concrete state and never-expired policy. -/
theorem dedup_fresh_read_noop_witness :
    IsExpired (some fun _ => Except.ok false) (MakeTimed (Val.vstr "v") 3) =
      Except.ok false ∧
    Mem.Dedup none none (some fun _ => Except.ok false) (MakeTimed (Val.vstr "v") 3) =
      (MakeTimed (Val.vstr "v") 3, Except.ok ⟨MakeTimed (Val.vstr "v") 3, 0, 0⟩) :=
  ⟨rfl, (dedup_fresh_read_noop none none (some fun _ => Except.ok false)
    (MakeTimed (Val.vstr "v") 3) rfl).1⟩

/-- Claim C2: when the policy says expired, `Dedup` applies `SetGetter` to
the stored container and then `SetTimer` to the resulting stored state, in
that order, and returns the updated state; concretely, from the empty
cache, with a producer returning `"v1"`, a clock returning `T1` and an
always-expired policy, the result holds `"v1"` with timestamp `T1`. -/
theorem dedup_expired_refresh (g : Option Getter) (tm : Option Timer)
    (exp : Option Expirer) (S : Timed) (T1 : Time)
    (h : IsExpired exp S = Except.ok true) :
    (∀ e1 gc, S.either.setGetter g = Except.ok (e1, gc) →
      ∀ fin tc, (Timed.mk e1 S.time).setTimer tm = Except.ok (fin, tc) →
        Mem.Dedup g tm exp S = (fin, Except.ok ⟨fin, gc, tc⟩)) ∧
    Mem.Dedup (some (Except.ok (Val.vstr "v1"))) (some (Except.ok T1))
        (some fun _ => Except.ok true) (MakeTimed Val.vnil 0) =
      (MakeTimed (Val.vstr "v1") T1, Except.ok ⟨MakeTimed (Val.vstr "v1") T1, 1, 1⟩) ∧
    (MakeTimed (Val.vstr "v1") T1).get = Except.ok (Val.vstr "v1") := by
  refine ⟨?_, rfl, rfl⟩
  intro e1 gc hg fin tc ht
  unfold Mem.Dedup
  rw [h]
  simp only [Bool.not_true, Bool.false_eq_true, if_false]
  rw [hg]
  dsimp only
  rw [ht]

/-- Witness for C2 with a concrete producer, clock and policy. -/
theorem dedup_expired_refresh_witness :
    IsExpired (some fun _ => Except.ok true) (MakeTimed Val.vnil 0) = Except.ok true ∧
    Mem.Dedup (some (Except.ok (Val.vstr "v1"))) (some (Except.ok 9))
        (some fun _ => Except.ok true) (MakeTimed Val.vnil 0) =
      (MakeTimed (Val.vstr "v1") 9, Except.ok ⟨MakeTimed (Val.vstr "v1") 9, 1, 1⟩) :=
  ⟨rfl, (dedup_expired_refresh (some (Except.ok (Val.vstr "v1"))) (some (Except.ok 9))
    (some fun _ => Except.ok true) (MakeTimed Val.vnil 0) 9 rfl).2.1⟩

/-- Claim C3: a clock that raises a failure has that failure stored in the
value slot (overwriting whatever was there), while the timestamp stays
exactly what it was before the call. -/
theorem setTimer_crash_overwrites_value (td : Timed) (p : Val)
    (h : p.isErr = true) :
    td.setTimer (some (Except.error p)) = Except.ok (⟨⟨p⟩, td.time⟩, 1) := by
  have hp : p ≠ Val.vnil := by
    intro hnil
    rw [hnil] at h
    exact absurd h (by simp [Val.isErr])
  cases td with
  | mk e ti => simp [Timed.setTimer, Either.recSet, Either.set, hp]

/-- Witness for C3 at a concrete timestamped value and failing clock. -/
theorem setTimer_crash_overwrites_value_witness :
    (Val.verr "boom").isErr = true ∧
    (MakeTimed (Val.vstr "x") 7).setTimer (some (Except.error (Val.verr "boom"))) =
      Except.ok (⟨⟨Val.verr "boom"⟩, 7⟩, 1) :=
  ⟨rfl, setTimer_crash_overwrites_value (MakeTimed (Val.vstr "x") 7)
    (Val.verr "boom") rfl⟩

/-- Claim C4: a producer raising failure `E` leaves the container holding
`E`, and `Get` on that container raises exactly `E`; `Get` takes no state,
so every subsequent `Get` raises `E` again until the slot is overwritten. -/
theorem setGetter_failure_roundtrip (E : Val) (box : Either)
    (h : E.isErr = true) :
    box.setGetter (some (Except.error E)) = Except.ok (⟨E⟩, 1) ∧
    Either.get ⟨E⟩ = Except.error E := by
  have hp : E ≠ Val.vnil := by
    intro hnil
    rw [hnil] at h
    exact absurd h (by simp [Val.isErr])
  constructor
  · simp [Either.setGetter, Either.recSet, Either.set, hp]
  · simp [Either.get, Either.unwrap, h]

/-- Witness for C4 at a concrete failure. -/
theorem setGetter_failure_roundtrip_witness :
    (Val.verr "some error").isErr = true ∧
    (Either.mk Val.vnil).setGetter (some (Except.error (Val.verr "some error"))) =
      Except.ok (⟨Val.verr "some error"⟩, 1) ∧
    Either.get ⟨Val.verr "some error"⟩ = Except.error (Val.verr "some error") :=
  ⟨rfl, setGetter_failure_roundtrip (Val.verr "some error") ⟨Val.vnil⟩ rfl⟩

/-- Claim C5: `SetGetter` never raises (the outcome is always a normal
return), a producer that raises a non-nil payload behaves identically to
one returning that payload, and an absent producer stores the absence
value. -/
theorem setGetter_never_raises (g : Option Getter) (e : Either) (v : Val)
    (hv : v ≠ Val.vnil) :
    (e.setGetter g).isOk = true ∧
    e.setGetter (some (Except.error v)) = e.setGetter (some (Except.ok v)) ∧
    e.setGetter none = Except.ok (⟨Val.vnil⟩, 0) := by
  refine ⟨?_, ?_, rfl⟩
  · cases g with
    | none => rfl
    | some g => cases g <;> rfl
  · simp [Either.setGetter, Either.recSet, Either.set, hv]

/-- Witness for C5 at a concrete payload. -/
theorem setGetter_never_raises_witness :
    Val.vint 1 ≠ Val.vnil ∧
    ((Either.mk Val.vnil).setGetter none).isOk = true ∧
    (Either.mk Val.vnil).setGetter (some (Except.error (Val.vint 1))) =
      (Either.mk Val.vnil).setGetter (some (Except.ok (Val.vint 1))) :=
  ⟨by decide,
    (setGetter_never_raises none ⟨Val.vnil⟩ (Val.vint 1) (by decide)).1,
    (setGetter_never_raises none ⟨Val.vnil⟩ (Val.vint 1) (by decide)).2.1⟩

/-- Claim C6: absent capabilities degrade to their neutral defaults — an
absent producer stores the absence value, which `Get` returns with no
failure; an absent clock sets the zero timestamp; an absent policy makes
every state expired. -/
theorem nil_capabilities_defaults (S : Timed) (e : Either) :
    e.setGetter none = Except.ok (⟨Val.vnil⟩, 0) ∧
    Either.get ⟨Val.vnil⟩ = Except.ok Val.vnil ∧
    S.setTimer none = Except.ok (⟨S.either, 0⟩, 0) ∧
    IsExpired none S = Except.ok true := by
  refine ⟨rfl, rfl, ?_, rfl⟩
  cases S with
  | mk e2 ti => rfl

/-- Counterexample to C7 as stated: with `D = -5`, `now = 0` and a
timestamp `T = 5`, the policy reports fresh although `T` is in the future
by exactly `|D|`, not by more than `|D|`. -/
theorem duration_negative_boundary_cex :
    Duration.IsExpired (-5) 0 (MakeTimed Val.vnil 5) = false ∧
    ¬ ((5 : Int) - 0 > 5) := by
  constructor
  · rfl
  · decide

/-- Claim C7 (amended): the fixed-duration policy reports expired iff
`now` is strictly after `T + D`; for negative `D`, a state is fresh iff its
timestamp is in the future by at least `|D|`. -/
theorem duration_isExpired_iff (D : Duration) (now : Time) (td : Timed) :
    (Duration.IsExpired D now td = true ↔ now > td.time + D) ∧
    (D < 0 → (Duration.IsExpired D now td = false ↔ td.time - now ≥ -D)) := by
  constructor
  · simp only [Duration.IsExpired, decide_eq_true_eq, gt_iff_lt]
  · intro hD
    simp only [Duration.IsExpired, decide_eq_false_iff_not, not_lt, ge_iff_le]
    constructor
    · intro h2
      linarith
    · intro h2
      linarith

/-- Witness for C7's amended statement at concrete inputs. -/
theorem duration_isExpired_iff_witness :
    ((-5 : Int) < 0) ∧
    (Duration.IsExpired (-5) 0 (MakeTimed Val.vnil 10) = false ↔
      (10 : Int) - 0 ≥ -(-5)) :=
  ⟨by decide, (duration_isExpired_iff (-5) 0 (MakeTimed Val.vnil 10)).2 (by decide)⟩

/-- Claim C8: in every reachable configuration of the interleaved protocol,
at most one thread is invoking the producer (mutual exclusion via the write
lock), and any two finished callers that observed the same history entry
returned the same timestamped result. -/
theorem dedup_mutex_and_agreement (caps : Nat → ThreadCap) (s0 s : Sys)
    (h0 : Init s0) (hr : Relation.ReflTransGen (Step caps) s0 s) :
    (∀ t1 t2, s.threads t1 = PC.producing → s.threads t2 = PC.producing →
      t1 = t2) ∧
    (∀ t1 t2 idx v1 v2, s.threads t1 = PC.done idx v1 →
      s.threads t2 = PC.done idx v2 → v1 = v2) := by
  have hinv := Inv.reach h0 hr
  constructor
  · intro t1 t2 h1 h2
    have w1 := hinv.lockOwner t1 (by rw [h1]; trivial)
    have w2 := hinv.lockOwner t2 (by rw [h2]; trivial)
    rw [w1] at w2
    exact Option.some.inj w2
  · intro t1 t2 idx v1 v2 h1 h2
    have e1 := hinv.doneLog t1 idx v1 h1
    have e2 := hinv.doneLog t2 idx v2 h2
    rw [e1] at e2
    exact Option.some.inj e2

/-- Configuration `sysInit` is a legitimate initial configuration. -/
theorem sysInit_init : Init sysInit :=
  ⟨rfl, fun _ => rfl, by simp [sysInit]⟩

/-- Thread 0 can run the protocol from `sysInit` up to the point where it
is about to invoke the producer. -/
theorem sysD_reachable : Relation.ReflTransGen (Step capsEx) sysInit sysD := by
  have s1 : Step capsEx sysInit sysA := Step.readFast 0 sysInit rfl rfl
  have s2 : Step capsEx sysA sysB :=
    Step.checkStale 0 sysA 0 (MakeTimed Val.vnil 0)
      (by simp [sysA, sysInit, Sys.cur]) rfl
  have s3 : Step capsEx sysB sysC := Step.acquire 0 sysB (by simp [sysB, sysA]) rfl
  have s4 : Step capsEx sysC sysD := Step.recheckStale 0 sysC (by simp [sysC]) rfl
  exact Relation.ReflTransGen.tail (Relation.ReflTransGen.tail
    (Relation.ReflTransGen.tail (Relation.ReflTransGen.single s1) s2) s3) s4

/-- Witness for C8 at a concrete reachable configuration. -/
theorem dedup_mutex_and_agreement_witness :
    sysD.threads 0 = PC.producing ∧ (0 : Nat) = 0 :=
  ⟨by simp [sysD],
    (dedup_mutex_and_agreement capsEx sysInit sysD sysInit_init sysD_reachable).1
      0 0 (by simp [sysD]) (by simp [sysD])⟩

/-- Claim C9: the package-level nil-safe helper `Get` returns the getter
capability itself (with zero invocations of it), returning the absence
value exactly when the capability is absent; it never produces the value
the capability would compute. -/
theorem get_helper_returns_capability (g : Getter) (v : Option Getter) :
    Get (some g) = (some g, 0) ∧
    Get none = (none, 0) ∧
    ((Get v).1 = none ↔ v = none) := by
  refine ⟨rfl, rfl, ?_⟩
  cases v <;> simp [Get]

/-- Claim C10: a freshness policy that raises during `Dedup` has its
failure propagate to the caller — it is not captured into the cache — and
the stored state is left unchanged by that call. -/
theorem dedup_expirer_crash_propagates (g : Option Getter) (tm : Option Timer)
    (exp : Option Expirer) (S : Timed) (p : Val)
    (h : IsExpired exp S = Except.error p) :
    Mem.Dedup g tm exp S = (S, Except.error p) := by
  unfold Mem.Dedup
  rw [h]

/-- Witness for C10 with a concrete panicking policy. -/
theorem dedup_expirer_crash_propagates_witness :
    IsExpired (some fun _ => Except.error (Val.verr "boom")) (MakeTimed Val.vnil 0) =
      Except.error (Val.verr "boom") ∧
    Mem.Dedup none none (some fun _ => Except.error (Val.verr "boom"))
        (MakeTimed Val.vnil 0) =
      (MakeTimed Val.vnil 0, Except.error (Val.verr "boom")) :=
  ⟨rfl, dedup_expirer_crash_propagates none none
    (some fun _ => Except.error (Val.verr "boom")) (MakeTimed Val.vnil 0)
    (Val.verr "boom") rfl⟩

end Ded
